import Mathlib

/-!
# Verification of the MyGrad reverse-mode autodiff core

A shallow embedding of `src/mygrad/tensor_base.py` (the `Tensor` class:
construction, the `_op` dispatch routine, `backward`, `null_gradients`,
`__copy__`) together with the parts of the missing `operations` module that
the spec describes (the `Operation` backward / null_gradients walk and the
concrete Add/Subtract/Multiply/Divide/Sum rules).

Python objects live in a heap: numpy arrays in an array store (so that the
aliasing behaviour of `self.data = x.data` versus `np.copy` is observable),
and Tensor objects in a node store addressed by allocation index.  The
recursive graph walks (`backward`, `null_gradients`) are written with an
explicit fuel argument; in any heap produced by the constructors the creator
graph is acyclic with strictly decreasing node indices, so fuel `tid + 1` is
always enough.
-/

deriving instance DecidableEq for Except

namespace MyGrad

/-- A dense numeric array: a shape vector and row-major integer contents
(integer-valued test points suffice for every property below).  The
underlying array library (numpy) is an external collaborator; we model the
pieces the Tensor core uses. -/
structure NDArray where
  shape : List Nat
  contents : List ℤ
deriving DecidableEq

/-- Number of dimensions, `ndarray.ndim`. -/
def NDArray.ndim (a : NDArray) : Nat := a.shape.length

/-- `np.ones(shape)`. -/
def NDArray.ones (sh : List Nat) : NDArray := ⟨sh, List.replicate sh.prod 1⟩

/-- `np.asarray(1)`: the 0-d array holding 1. -/
def NDArray.one0d : NDArray := ⟨[], [1]⟩

/-- Elementwise sum (shapes agreeing, as in every use the core makes). -/
def NDArray.add (a b : NDArray) : NDArray := ⟨a.shape, a.contents.zipWith (· + ·) b.contents⟩

/-- Elementwise difference. -/
def NDArray.sub (a b : NDArray) : NDArray := ⟨a.shape, a.contents.zipWith (· - ·) b.contents⟩

/-- Elementwise product. -/
def NDArray.mul (a b : NDArray) : NDArray := ⟨a.shape, a.contents.zipWith (· * ·) b.contents⟩

/-- Elementwise quotient. -/
def NDArray.quot (a b : NDArray) : NDArray := ⟨a.shape, a.contents.zipWith (· / ·) b.contents⟩

/-- Elementwise negation. -/
def NDArray.neg (a : NDArray) : NDArray := ⟨a.shape, a.contents.map (fun x => -x)⟩

/-- A scalar element of a raw (not yet validated) python input: either a
number or a string. -/
inductive PyLeaf where
  | num (v : ℤ)
  | str (s : String)
deriving DecidableEq

/-- Raw array-like python input to the Tensor constructor: a scalar or a
(one-level) python list of scalars. -/
inductive PyObj where
  | leaf (x : PyLeaf)
  | list (xs : List PyLeaf)
deriving DecidableEq

/-- Result of `np.asarray` on raw input: a shaped collection of elements
whose dtype has not been checked yet. -/
structure RawArr where
  shape : List Nat
  elems : List PyLeaf
deriving DecidableEq

/-- `np.asarray` on raw array-like input. -/
def asarrayRaw : PyObj → RawArr
  | .leaf x => ⟨[], [x]⟩
  | .list xs => ⟨[xs.length], xs⟩

/-- `np.issubdtype(dtype, np.number)`: every element is numeric. -/
def RawArr.isNumericDtype (a : RawArr) : Bool :=
  a.elems.all fun l => match l with
    | .num _ => true
    | .str _ => false

/-- Extract the numeric contents of a raw array (meaningful when the dtype
check passed). -/
def RawArr.toNDArray (a : RawArr) : NDArray :=
  ⟨a.shape, a.elems.map fun l => match l with
    | .num v => v
    | .str _ => 0⟩

/-- Modelled from the spec: the error taxonomy (section 7).  The missing
`operations` module would define the library's own error classes
(`InvalidDataType`, `InvalidNonScalarBackprop`); `typeError` is python's
builtin `TypeError`, which is what `Tensor._check_valid_dtype` raises. -/
inductive Err where
  | typeError (msg : String)
  | invalidDataType
  | invalidNonScalarBackprop
deriving DecidableEq

/-- Modelled from the spec: the closed catalog of concrete Operation
variants (section 4.5 / design note in section 9); the `operations` module
is not in the sources. -/
inductive OpKind where
  | add
  | subtract
  | multiply
  | divide
  | sumAll
deriving DecidableEq

/-- Modelled from the spec: each Operation class declares a `scalar_only`
flag; it is false for the elementwise binary ops and not required for Sum
(section 4.5). -/
def OpKind.scalarOnlyFlag : OpKind → Bool := fun _ => false

/-- Modelled from the spec: forward passes of the concrete operations
(elementwise arithmetic; Sum with the default axis=None reduces to 0-d). -/
def OpKind.forward : OpKind → List NDArray → NDArray
  | .add, a :: b :: _ => a.add b
  | .subtract, a :: b :: _ => a.sub b
  | .multiply, a :: b :: _ => a.mul b
  | .divide, a :: b :: _ => a.quot b
  | .sumAll, a :: _ => ⟨[], [a.contents.sum]⟩
  | _, _ => ⟨[], [0]⟩

/-- Modelled from the spec: the backward (vector-Jacobian-product) rule of
each operation: given the input arrays, an input position and the incoming
gradient, the gradient contribution for that input (section 4.5). -/
def OpKind.vjp : OpKind → List NDArray → Nat → NDArray → NDArray
  | .add, _, _, g => g
  | .subtract, _, i, g => if i = 0 then g else g.neg
  | .multiply, a :: b :: _, i, g => if i = 0 then g.mul b else g.mul a
  | .divide, a :: b :: _, i, g =>
      if i = 0 then g.quot b else ((g.mul a).neg).quot (b.mul b)
  | .sumAll, a :: _, _, g => ⟨a.shape, List.replicate a.shape.prod (g.contents.headD 0)⟩
  | _, _, _, g => g

/-- An Operation instance as stored in a result Tensor's `_creator` slot: its
kind and the (order-preserving, duplicates allowed) node indices of its
input Tensors. -/
structure OpNode where
  kind : OpKind
  inputs : List Nat
deriving DecidableEq

/-- A Tensor object: reference into the array store for `self.data`, the
`grad` buffer, the `_constant` and `_scalar_only` flags, and the `_creator`
back-reference. -/
structure TensorNode where
  dataRef : Nat
  grad : Option NDArray
  constant : Bool
  scalarOnly : Bool
  creator : Option OpNode
deriving DecidableEq

/-- The python heap: the array store (so array aliasing is observable) and
the store of Tensor objects, addressed by allocation index. -/
structure Heap where
  arrs : List NDArray
  nodes : List TensorNode
deriving DecidableEq

/-- Default node used for out-of-range reads. -/
def defaultNode : TensorNode := ⟨0, none, false, false, none⟩

/-- Read a Tensor object from the heap. -/
def Heap.node (st : Heap) (i : Nat) : TensorNode := st.nodes.getD i defaultNode

/-- Read an array from the array store. -/
def Heap.arr (st : Heap) (r : Nat) : NDArray := st.arrs.getD r ⟨[], []⟩

/-- `t.data`: the array a Tensor's data reference points at. -/
def Heap.dataOf (st : Heap) (i : Nat) : NDArray := st.arr (st.node i).dataRef

/-- `t.grad`. -/
def Heap.gradOf (st : Heap) (i : Nat) : Option NDArray := (st.node i).grad

/-- Overwrite a Tensor's `grad` buffer. -/
def Heap.setGrad (st : Heap) (i : Nat) (g : Option NDArray) : Heap :=
  { st with nodes := st.nodes.set i { st.nodes.getD i defaultNode with grad := g } }

/-- In-place mutation of an array in the store (`x.data[...] = v`). -/
def Heap.writeArr (st : Heap) (r : Nat) (a : NDArray) : Heap :=
  { st with arrs := st.arrs.set r a }

/-- The three shapes of input the Tensor constructor / `_op` receive: an
existing Tensor, raw array-like python data, or an already-built ndarray. -/
inductive TInput where
  | ofTensor (tid : Nat)
  | ofRaw (x : PyObj)
  | ofArr (a : NDArray)
deriving DecidableEq

/-- Embeds `Tensor.__init__`.  For an existing Tensor the array reference is
reused (`self.data = x.data` — no copy, no dtype check); for raw data,
`np.asarray` plus `_check_valid_dtype`, which raises the builtin
`TypeError` on a non-numeric dtype; `np.asarray` on an ndarray is the
identity and its dtype is already numeric.  Allocates the new Tensor object
and returns its index. -/
def Tensor.init (st : Heap) (x : TInput) (constant : Bool) (scalarOnly : Bool)
    (creator : Option OpNode) : Except Err (Heap × Nat) :=
  match x with
  | .ofTensor tid =>
      let nd : TensorNode := ⟨(st.node tid).dataRef, none, constant, scalarOnly, creator⟩
      .ok ({ st with nodes := st.nodes ++ [nd] }, st.nodes.length)
  | .ofRaw p =>
      let a := asarrayRaw p
      if a.isNumericDtype then
        let nd : TensorNode := ⟨st.arrs.length, none, constant, scalarOnly, creator⟩
        .ok (⟨st.arrs ++ [a.toNDArray], st.nodes ++ [nd]⟩, st.nodes.length)
      else
        .error (.typeError "Tensor data must be a numeric type")
  | .ofArr a =>
      let nd : TensorNode := ⟨st.arrs.length, none, constant, scalarOnly, creator⟩
      .ok (⟨st.arrs ++ [a], st.nodes ++ [nd]⟩, st.nodes.length)

/-- Embeds the coercion step of `Tensor._op`: a value that is already a
Tensor is used as-is; anything else becomes a new constant leaf Tensor. -/
def coerceOne (st : Heap) (v : TInput) : Except Err (Heap × Nat) :=
  match v with
  | .ofTensor tid => .ok (st, tid)
  | _ => Tensor.init st v true false none

/-- Coerce a whole input list, left to right, threading the heap. -/
def coerceAll (st : Heap) (vs : List TInput) : Except Err (Heap × List Nat) :=
  match vs with
  | [] => .ok (st, [])
  | v :: rest =>
      match coerceOne st v with
      | .error e => .error e
      | .ok (st1, tid) =>
          match coerceAll st1 rest with
          | .error e => .error e
          | .ok (st2, tids) => .ok (st2, tid :: tids)

/-- Embeds `Tensor._op`: coerce the inputs, run the forward pass, take
`is_const` as the conjunction of the inputs' constant flags, fold the
`scalar_only` flag exactly as the source loop does, and wrap the raw result
in a new Tensor whose creator is the Operation instance. -/
def Tensor.applyOp (st : Heap) (k : OpKind) (inputVars : List TInput) :
    Except Err (Heap × Nat) :=
  match coerceAll st inputVars with
  | .error e => .error e
  | .ok (st1, tids) =>
      let opOut := k.forward (tids.map st1.dataOf)
      let isConst := tids.all fun i => (st1.node i).constant
      let scalarOnly := tids.foldl
        (fun acc i => acc || ((st1.node i).scalarOnly && !(st1.node i).constant))
        (k.scalarOnlyFlag && !isConst)
      Tensor.init st1 (.ofArr opOut) isConst scalarOnly (some ⟨k, tids⟩)

/-- The gradient `Tensor.backward` works with: the incoming one when
supplied, else the default seed — `np.asarray(1)` for a 0-d tensor,
`np.ones(self.shape)` otherwise. -/
def seedGrad (st : Heap) (tid : Nat) (gradIn : Option NDArray) : NDArray :=
  match gradIn with
  | some g => g
  | none =>
      if (st.dataOf tid).ndim = 0 then NDArray.one0d else NDArray.ones (st.dataOf tid).shape

/-- The value `Tensor.backward` stores into `self.grad`: the incoming
gradient when the buffer was absent, else the elementwise sum with the
existing buffer. -/
def accGrad (st : Heap) (tid : Nat) (grad : NDArray) : NDArray :=
  match (st.node tid).grad with
  | none => grad
  | some b => b.add grad

/-- Embeds `Tensor.backward` together with the Operation backward walk.
The Tensor part is taken from the source: choose the seed (`1` for 0-d,
ones otherwise) when no gradient comes in, set or accumulate `self.grad`,
then hand the incoming gradient to the creator.  The Operation part is
modelled from the spec (sections 3 and 4.3): the creator computes a
vector-Jacobian-product contribution per input and recursively calls
`backward` on each non-constant input.  `fuel` bounds the recursion depth;
the creator graph is acyclic with inputs allocated before results, so fuel
`tid + 1` always suffices on well-formed heaps. -/
def Tensor.backwardF : Nat → Heap → Nat → Option NDArray → Heap
  | 0, st, _, _ => st
  | fuel + 1, st, tid, gradIn =>
      let grad := seedGrad st tid gradIn
      let st1 := st.setGrad tid (some (accGrad st tid grad))
      match (st1.node tid).creator with
      | none => st1
      | some op =>
          (op.inputs.zip (List.range op.inputs.length)).foldl
            (fun acc pi =>
              if (acc.node pi.1).constant then acc
              else Tensor.backwardF fuel acc pi.1
                (some (op.kind.vjp (op.inputs.map st1.dataOf) pi.2 grad)))
            st1

/-- The heap after the grad set/accumulate step of `backward`. -/
def bwAcc (st : Heap) (tid : Nat) (gIn : Option NDArray) : Heap :=
  st.setGrad tid (some (accGrad st tid (seedGrad st tid gIn)))

/-- The creator walk of `backward`: fold the recursive calls over the
creator's inputs (indices paired with their positions). -/
def bwFold (fuel : Nat) (st1 : Heap) (op : OpNode) (grad : NDArray) : Heap :=
  (op.inputs.zip (List.range op.inputs.length)).foldl
    (fun acc pi =>
      if (acc.node pi.1).constant then acc
      else Tensor.backwardF fuel acc pi.1
        (some (op.kind.vjp (op.inputs.map st1.dataOf) pi.2 grad)))
    st1

/-- Embeds `Tensor.null_gradients` together with the Operation
null_gradients walk, which is modelled from the spec (section 4.4): clear
this Tensor's `grad`, then recurse into every input Tensor of the creator,
regardless of constancy. -/
def Tensor.nullGrads : Nat → Heap → Nat → Heap
  | 0, st, _ => st
  | fuel + 1, st, tid =>
      let st1 := st.setGrad tid none
      match (st1.node tid).creator with
      | none => st1
      | some op => op.inputs.foldl (fun acc i => Tensor.nullGrads fuel acc i) st1

/-- Embeds `Tensor.__copy__`: a new Tensor built from `np.copy(self.data)`
(a fresh array cell with equal contents), with the same constant and
scalar-only flags and no creator. -/
def Tensor.copy (st : Heap) (tid : Nat) : Except Err (Heap × Nat) :=
  Tensor.init st (.ofArr (st.dataOf tid)) (st.node tid).constant (st.node tid).scalarOnly none

/-- The node indices of the creator's inputs (empty for a leaf). -/
def creatorInputs (st : Heap) (i : Nat) : List Nat :=
  match (st.node i).creator with
  | none => []
  | some op => op.inputs

/-- A heap is well-formed when every creator edge points to an earlier
allocated node; every heap the constructors build satisfies this, and it
makes the creator graph acyclic. -/
def Heap.wfB (st : Heap) : Bool :=
  (List.range st.nodes.length).all fun i => (creatorInputs st i).all fun j => j < i

/-- Reachability through creator links: the upstream subgraph of a node. -/
inductive Reaches (st : Heap) : Nat → Nat → Prop where
  | refl (t : Nat) : Reaches st t t
  | step {t j k : Nat} : j ∈ creatorInputs st t → Reaches st j k → Reaches st t k

/-- The fuel-bounded list of nodes the `null_gradients` walk visits,
in visiting order. -/
def reachL : Nat → Heap → Nat → List Nat
  | 0, _, _ => []
  | fuel + 1, st, tid => tid :: (creatorInputs st tid).flatMap (fun i => reachL fuel st i)

/-- The immutable part of a Tensor object: everything except the `grad`
buffer. -/
def TensorNode.meta (n : TensorNode) : Nat × Bool × Bool × Option OpNode :=
  (n.dataRef, n.constant, n.scalarOnly, n.creator)

/-- Two heaps agree on everything except possibly the `grad` buffers: same
array store, same node count, same immutable node fields.  Backward
propagation and gradient reset only move a heap inside one such class. -/
def Heap.structEq (s t : Heap) : Prop :=
  s.arrs = t.arrs ∧ s.nodes.length = t.nodes.length ∧ ∀ j, (s.node j).meta = (t.node j).meta

/-- Extract the result of a successful construction (dummy values on
error; every use below is on a success). -/
def getOk (e : Except Err (Heap × Nat)) : Heap × Nat :=
  match e with
  | .ok p => p
  | .error _ => (⟨[], []⟩, 0)

/-! Concrete test graphs used by the closed theorems and witnesses. -/

/-- A non-constant 0-d leaf holding 2 (`x = Tensor(2)`). -/
def exLeaf2 : Except Err (Heap × Nat) :=
  Tensor.init ⟨[], []⟩ (.ofRaw (.leaf (.num 2))) false false none

/-- Heap after constructing `x`. -/
def exHeapX : Heap := (getOk exLeaf2).1

/-- `y = x + x`: the same Tensor used as both operands of Add. -/
def exAddXX : Except Err (Heap × Nat) :=
  Tensor.applyOp exHeapX .add [.ofTensor (getOk exLeaf2).2, .ofTensor (getOk exLeaf2).2]

/-- Heap after constructing `y = x + x`. -/
def exHeapY : Heap := (getOk exAddXX).1

/-- Heap after `y.backward()` on `y = x + x`. -/
def exHeapYBack : Heap := Tensor.backwardF 2 exHeapY (getOk exAddXX).2 none

/-- A 1-d non-constant leaf flagged `_scalar_only=True`
(`t = Tensor([1, 2], _scalar_only=True)`). -/
def exScalarOnlyVec : Except Err (Heap × Nat) :=
  Tensor.init ⟨[], []⟩ (.ofRaw (.list [.num 1, .num 2])) false true none

/-- A constant 0-d leaf (`t = Tensor(1, constant=True)`). -/
def exConstLeaf : Except Err (Heap × Nat) :=
  Tensor.init ⟨[], []⟩ (.ofRaw (.leaf (.num 1))) true false none

/-- A 1-d non-constant leaf holding `[1, 2]` (`x = Tensor([1, 2])`). -/
def exVecLeaf : Except Err (Heap × Nat) :=
  Tensor.init ⟨[], []⟩ (.ofRaw (.list [.num 1, .num 2])) false false none

/-- Heap after constructing `x = Tensor([1, 2])`. -/
def exHeapVec : Heap := (getOk exVecLeaf).1

/-- `y = Tensor(x)`: constructing a Tensor from an existing Tensor. -/
def exFromTensor : Except Err (Heap × Nat) :=
  Tensor.init exHeapVec (.ofTensor (getOk exVecLeaf).2) false false none

/-- Heap after `y = Tensor(x)`. -/
def exHeapFromTensor : Heap := (getOk exFromTensor).1

/-- A non-constant 0-d leaf flagged `_scalar_only=True`
(`x = Tensor(2, _scalar_only=True)`), used to exercise flag propagation. -/
def exScalarOnlyLeaf : Except Err (Heap × Nat) :=
  Tensor.init ⟨[], []⟩ (.ofRaw (.leaf (.num 2))) false true none

/-- Heap after constructing the scalar-only leaf. -/
def exHeapSO : Heap := (getOk exScalarOnlyLeaf).1

/-- `z = x + 3` with `x` the scalar-only leaf and `3` a raw (non-Tensor)
operand that `_op` must coerce. -/
def exMixedOp : Except Err (Heap × Nat) :=
  Tensor.applyOp exHeapSO .add [.ofTensor (getOk exScalarOnlyLeaf).2, .ofRaw (.leaf (.num 3))]

/-- Extract the result of a successful coercion (dummy values on error). -/
def getOkC (e : Except Err (Heap × List Nat)) : Heap × List Nat :=
  match e with
  | .ok p => p
  | .error _ => (⟨[], []⟩, [])

/-- The coercion step of `exMixedOp` taken on its own. -/
def exMixedCoerce : Except Err (Heap × List Nat) :=
  coerceAll exHeapSO [.ofTensor (getOk exScalarOnlyLeaf).2, .ofRaw (.leaf (.num 3))]

/-- `copy(x)` for `x = Tensor([1, 2])`. -/
def exCopy : Except Err (Heap × Nat) := Tensor.copy exHeapVec (getOk exVecLeaf).2

/-! ## Basic list and heap lemmas -/

theorem setElem_self {α : Type} {l : List α} {i : Nat} {a : α}
    (h : l[i]? = some a) : l.set i a = l := by
  apply List.ext_getElem?
  intro n
  rw [List.getElem?_set]
  split
  · next heq =>
      subst heq
      split
      · exact h.symm
      · next hlt =>
          rw [List.getElem?_eq_none (by omega)] at h
          exact absurd h (by simp)
  · rfl

theorem foldl_preserves {α σ : Type} (P : σ → Prop) (g : σ → α → σ)
    (hstep : ∀ s a, P s → P (g s a)) :
    ∀ (l : List α) (s : σ), P s → P (l.foldl g s) := by
  intro l
  induction l with
  | nil => intro s hs; exact hs
  | cons a rest ih => intro s hs; exact ih (g s a) (hstep s a hs)

theorem foldl_preserves_mem {α σ : Type} (P : σ → Prop) (l : List α) (g : σ → α → σ)
    (hstep : ∀ s a, a ∈ l → P s → P (g s a)) :
    ∀ (s : σ), P s → P (l.foldl g s) := by
  induction l with
  | nil => intro s hs; exact hs
  | cons a rest ih =>
      intro s hs
      exact ih (fun s b hb hsb => hstep s b (List.mem_cons_of_mem a hb) hsb)
        (g s a) (hstep s a (List.mem_cons_self a rest) hs)

theorem Heap.node_eq_getD (st : Heap) (i : Nat) : st.node i = st.nodes.getD i defaultNode := rfl

theorem Heap.node_oob {st : Heap} {i : Nat} (h : st.nodes.length ≤ i) :
    st.node i = defaultNode := by
  rw [Heap.node_eq_getD, List.getD_eq_getElem?_getD, List.getElem?_eq_none h]
  rfl

theorem Heap.gradOf_oob {st : Heap} {i : Nat} (h : st.nodes.length ≤ i) :
    st.gradOf i = none := by
  rw [Heap.gradOf, Heap.node_oob h]
  rfl

theorem Heap.arrs_setGrad (st : Heap) (i : Nat) (g : Option NDArray) :
    (st.setGrad i g).arrs = st.arrs := rfl

theorem Heap.length_setGrad (st : Heap) (i : Nat) (g : Option NDArray) :
    (st.setGrad i g).nodes.length = st.nodes.length := by
  simp [Heap.setGrad]

theorem Heap.node_setGrad_ne (st : Heap) {i j : Nat} (h : i ≠ j) (g : Option NDArray) :
    (st.setGrad i g).node j = st.node j := by
  simp only [Heap.node_eq_getD, Heap.setGrad, List.getD_eq_getElem?_getD]
  rw [List.getElem?_set_ne h]

theorem Heap.gradOf_setGrad_self (st : Heap) {i : Nat} (h : i < st.nodes.length)
    (g : Option NDArray) : (st.setGrad i g).gradOf i = g := by
  simp only [Heap.gradOf, Heap.node_eq_getD, Heap.setGrad, List.getD_eq_getElem?_getD]
  rw [List.getElem?_set_self' ]
  rw [List.getElem?_eq_getElem h]
  rfl

theorem Heap.meta_node_setGrad (st : Heap) (i j : Nat) (g : Option NDArray) :
    ((st.setGrad i g).node j).meta = (st.node j).meta := by
  rcases eq_or_ne i j with rfl | hne
  · rcases lt_or_le i st.nodes.length with hlt | hle
    · simp only [Heap.node_eq_getD, Heap.setGrad, List.getD_eq_getElem?_getD]
      rw [List.getElem?_set_self', List.getElem?_eq_getElem hlt]
      rfl
    · have h1 : (st.setGrad i g).node i = defaultNode :=
        Heap.node_oob (by rw [Heap.length_setGrad]; exact hle)
      rw [h1, Heap.node_oob hle]
  · rw [Heap.node_setGrad_ne st hne]

theorem Heap.setGrad_structEq (st : Heap) (i : Nat) (g : Option NDArray) :
    (st.setGrad i g).structEq st :=
  ⟨rfl, Heap.length_setGrad st i g, fun j => Heap.meta_node_setGrad st i j g⟩

theorem Heap.structEq_refl (st : Heap) : st.structEq st := ⟨rfl, rfl, fun _ => rfl⟩

theorem Heap.structEq_trans {s t u : Heap} (h1 : s.structEq t) (h2 : t.structEq u) :
    s.structEq u :=
  ⟨h1.1.trans h2.1, h1.2.1.trans h2.2.1, fun j => (h1.2.2 j).trans (h2.2.2 j)⟩

theorem TensorNode.dataRef_of_meta {m n : TensorNode} (h : m.meta = n.meta) :
    m.dataRef = n.dataRef := congrArg (fun p => p.1) h

theorem TensorNode.constant_of_meta {m n : TensorNode} (h : m.meta = n.meta) :
    m.constant = n.constant := congrArg (fun p => p.2.1) h

theorem TensorNode.scalarOnly_of_meta {m n : TensorNode} (h : m.meta = n.meta) :
    m.scalarOnly = n.scalarOnly := congrArg (fun p => p.2.2.1) h

theorem TensorNode.creator_of_meta {m n : TensorNode} (h : m.meta = n.meta) :
    m.creator = n.creator := congrArg (fun p => p.2.2.2) h

theorem Heap.creatorInputs_congr {s t : Heap} (h : s.structEq t) (i : Nat) :
    creatorInputs s i = creatorInputs t i := by
  unfold creatorInputs
  rw [TensorNode.creator_of_meta (h.2.2 i)]

theorem Heap.dataOf_congr {s t : Heap} (h : s.structEq t) (i : Nat) :
    s.dataOf i = t.dataOf i := by
  unfold Heap.dataOf Heap.arr
  rw [TensorNode.dataRef_of_meta (h.2.2 i), h.1]

theorem Heap.wfB_congr {s t : Heap} (h : s.structEq t) : s.wfB = t.wfB := by
  unfold Heap.wfB
  rw [h.2.1]
  apply congrArg
  funext i
  rw [Heap.creatorInputs_congr h]

theorem Heap.reachL_congr {s t : Heap} (h : s.structEq t) :
    ∀ (fuel : Nat) (i : Nat), reachL fuel s i = reachL fuel t i := by
  intro fuel
  induction fuel with
  | zero => intro i; rfl
  | succ f ih =>
      intro i
      show i :: _ = i :: _
      rw [Heap.creatorInputs_congr h i]
      have hfun : (fun j => reachL f s j) = (fun j => reachL f t j) := funext ih
      rw [hfun]

theorem creatorInputs_oob {st : Heap} {i : Nat} (h : st.nodes.length ≤ i) :
    creatorInputs st i = [] := by
  unfold creatorInputs
  rw [Heap.node_oob h]
  rfl

theorem wfB_lt {st : Heap} (hwf : st.wfB = true) {i j : Nat}
    (hj : j ∈ creatorInputs st i) : j < i := by
  rcases lt_or_le i st.nodes.length with hlt | hle
  · unfold Heap.wfB at hwf
    rw [List.all_eq_true] at hwf
    have h1 := hwf i (List.mem_range.mpr hlt)
    rw [List.all_eq_true] at h1
    simpa using h1 j hj
  · rw [creatorInputs_oob hle] at hj
    cases hj

/-! ## Backward propagation lemmas -/

theorem Tensor.backwardF_succ (fuel : Nat) (st : Heap) (tid : Nat) (gIn : Option NDArray) :
    Tensor.backwardF (fuel + 1) st tid gIn =
      match (st.node tid).creator with
      | none => bwAcc st tid gIn
      | some op => bwFold fuel (bwAcc st tid gIn) op (seedGrad st tid gIn) := by
  show (match ((bwAcc st tid gIn).node tid).creator with
        | none => bwAcc st tid gIn
        | some op => bwFold fuel (bwAcc st tid gIn) op (seedGrad st tid gIn)) = _
  have hc : ((bwAcc st tid gIn).node tid).creator = (st.node tid).creator :=
    TensorNode.creator_of_meta (Heap.meta_node_setGrad st tid tid _)
  rw [hc]

theorem Tensor.nullGrads_succ (fuel : Nat) (st : Heap) (tid : Nat) :
    Tensor.nullGrads (fuel + 1) st tid =
      match (st.node tid).creator with
      | none => st.setGrad tid none
      | some op =>
          op.inputs.foldl (fun acc i => Tensor.nullGrads fuel acc i) (st.setGrad tid none) := by
  show (match ((st.setGrad tid none).node tid).creator with
        | none => st.setGrad tid none
        | some op =>
            op.inputs.foldl (fun acc i => Tensor.nullGrads fuel acc i) (st.setGrad tid none)) = _
  have hc : ((st.setGrad tid none).node tid).creator = (st.node tid).creator :=
    TensorNode.creator_of_meta (Heap.meta_node_setGrad st tid tid _)
  rw [hc]

theorem Tensor.backwardF_structEq :
    ∀ (fuel : Nat) (st : Heap) (t : Nat) (g : Option NDArray),
      (Tensor.backwardF fuel st t g).structEq st := by
  intro fuel
  induction fuel with
  | zero => intro st t g; exact Heap.structEq_refl st
  | succ f ih =>
      intro st t g
      rw [Tensor.backwardF_succ]
      rcases hcr : (st.node t).creator with _ | op
      · exact Heap.setGrad_structEq st t _
      · refine foldl_preserves (fun s : Heap => s.structEq st) _ ?_ _ _ (Heap.setGrad_structEq st t _)
        intro s pi hs
        dsimp only
        split
        · exact hs
        · exact Heap.structEq_trans (ih s pi.1 _) hs

theorem Tensor.backwardF_gradOf_high {fuel : Nat} :
    ∀ {st : Heap} {r j : Nat} {g : Option NDArray},
      st.wfB = true → r < j → (Tensor.backwardF fuel st r g).gradOf j = st.gradOf j := by
  induction fuel with
  | zero => intro st r j g _ _; rfl
  | succ f ih =>
      intro st r j g hwf hrj
      rw [Tensor.backwardF_succ]
      have hacc : (bwAcc st r g).gradOf j = st.gradOf j := by
        unfold bwAcc Heap.gradOf
        rw [Heap.node_setGrad_ne st (Nat.ne_of_lt hrj) _]
      rcases hcr : (st.node r).creator with _ | op
      · exact hacc
      · refine foldl_preserves_mem
          (fun s : Heap => s.gradOf j = st.gradOf j ∧ s.structEq st) _ _ ?_ _
          ⟨hacc, Heap.setGrad_structEq st r _⟩ |>.1
        intro s pi hpi hs
        dsimp only
        split
        · exact hs
        · have hmem : pi.1 ∈ creatorInputs st r := by
            unfold creatorInputs
            rw [hcr]
            exact (List.of_mem_zip hpi).1
          have hlt : pi.1 < j := lt_trans (wfB_lt hwf hmem) hrj
          have hwfs : s.wfB = true := by rw [Heap.wfB_congr hs.2]; exact hwf
          exact ⟨(ih hwfs hlt).trans hs.1,
            Heap.structEq_trans (Tensor.backwardF_structEq f s pi.1 _) hs.2⟩

/-- The grad buffer a call to `backward` leaves on the tensor it was invoked
on: the set-or-accumulate step lands there, and (on a well-formed heap) the
recursive creator walk only touches strictly earlier nodes. -/
theorem Tensor.backwardF_gradOf_self {st : Heap} {tid : Nat} {gIn : Option NDArray}
    (hwf : st.wfB = true) (ht : tid < st.nodes.length) (fuel : Nat) :
    (Tensor.backwardF (fuel + 1) st tid gIn).gradOf tid =
      some (accGrad st tid (seedGrad st tid gIn)) := by
  rw [Tensor.backwardF_succ]
  have hacc : (bwAcc st tid gIn).gradOf tid = some (accGrad st tid (seedGrad st tid gIn)) :=
    Heap.gradOf_setGrad_self st ht _
  rcases hcr : (st.node tid).creator with _ | op
  · exact hacc
  · refine foldl_preserves_mem
      (fun s : Heap => s.gradOf tid = some (accGrad st tid (seedGrad st tid gIn)) ∧ s.structEq st)
      _ _ ?_ _ ⟨hacc, Heap.setGrad_structEq st tid _⟩ |>.1
    intro s pi hpi hs
    dsimp only
    split
    · exact hs
    · have hmem : pi.1 ∈ creatorInputs st tid := by
        unfold creatorInputs
        rw [hcr]
        exact (List.of_mem_zip hpi).1
      have hlt : pi.1 < tid := wfB_lt hwf hmem
      have hwfs : s.wfB = true := by rw [Heap.wfB_congr hs.2]; exact hwf
      exact ⟨(Tensor.backwardF_gradOf_high hwfs hlt).trans hs.1,
        Heap.structEq_trans (Tensor.backwardF_structEq _ s pi.1 _) hs.2⟩

/-! ## Gradient reset lemmas -/

theorem Tensor.nullGrads_structEq :
    ∀ (fuel : Nat) (st : Heap) (t : Nat), (Tensor.nullGrads fuel st t).structEq st := by
  intro fuel
  induction fuel with
  | zero => intro st t; exact Heap.structEq_refl st
  | succ f ih =>
      intro st t
      rw [Tensor.nullGrads_succ]
      rcases hcr : (st.node t).creator with _ | op
      · exact Heap.setGrad_structEq st t none
      · refine foldl_preserves (fun s : Heap => s.structEq st) _ ?_ _ _
          (Heap.setGrad_structEq st t none)
        intro s i hs
        exact Heap.structEq_trans (ih s i) hs

/-- Gradient reset never creates a gradient: a slot that reads `none` still
reads `none` afterwards. -/
theorem Tensor.nullGrads_none_mono :
    ∀ (fuel : Nat) (st : Heap) (t j : Nat),
      st.gradOf j = none → (Tensor.nullGrads fuel st t).gradOf j = none := by
  intro fuel
  induction fuel with
  | zero => intro st t j h; exact h
  | succ f ih =>
      intro st t j h
      rw [Tensor.nullGrads_succ]
      have hset : (st.setGrad t none).gradOf j = none := by
        rcases eq_or_ne t j with rfl | hne
        · rcases lt_or_le t st.nodes.length with hlt | hle
          · exact Heap.gradOf_setGrad_self st hlt none
          · exact Heap.gradOf_oob (by rw [Heap.length_setGrad]; exact hle)
        · unfold Heap.gradOf
          rw [Heap.node_setGrad_ne st hne none]
          exact h
      rcases hcr : (st.node t).creator with _ | op
      · exact hset
      · refine foldl_preserves (fun s : Heap => s.gradOf j = none) _ ?_ _ _ hset
        intro s i hs
        exact ih s i j hs

/-- Auxiliary: folding `null_gradients` over a list of roots clears any slot
reachable from one of the roots, given that a single call does so at this
fuel. -/
theorem ngFold_clears (f : Nat)
    (ihf : ∀ (st : Heap) (t j : Nat),
      j ∈ reachL f st t → (Tensor.nullGrads f st t).gradOf j = none) :
    ∀ (l : List Nat) (st acc : Heap) (i0 j : Nat),
      acc.structEq st → i0 ∈ l → j ∈ reachL f st i0 →
      (l.foldl (fun a i => Tensor.nullGrads f a i) acc).gradOf j = none := by
  intro l
  induction l with
  | nil => intro st acc i0 j _ h _; cases h
  | cons i rest ihl =>
      intro st acc i0 j hse hi0 hji
      rcases List.mem_cons.mp hi0 with rfl | htail
      · have hreach : j ∈ reachL f acc i0 := by
          rw [Heap.reachL_congr hse]
          exact hji
        have hcl : (Tensor.nullGrads f acc i0).gradOf j = none := ihf acc i0 j hreach
        show (rest.foldl _ (Tensor.nullGrads f acc i0)).gradOf j = none
        refine foldl_preserves (fun s : Heap => s.gradOf j = none) _ ?_ _ _ hcl
        intro s i1 hs
        exact Tensor.nullGrads_none_mono f s i1 j hs
      · exact ihl st (Tensor.nullGrads f acc i) i0 j
          (Heap.structEq_trans (Tensor.nullGrads_structEq f acc i) hse) htail hji

/-- Gradient reset clears every slot its walk visits. -/
theorem Tensor.nullGrads_clears :
    ∀ (fuel : Nat) (st : Heap) (t j : Nat),
      j ∈ reachL fuel st t → (Tensor.nullGrads fuel st t).gradOf j = none := by
  intro fuel
  induction fuel with
  | zero => intro st t j h; cases h
  | succ f ih =>
      intro st t j hj
      rw [Tensor.nullGrads_succ]
      have hset : (st.setGrad t none).gradOf t = none := by
        rcases lt_or_le t st.nodes.length with hlt | hle
        · exact Heap.gradOf_setGrad_self st hlt none
        · exact Heap.gradOf_oob (by rw [Heap.length_setGrad]; exact hle)
      rw [reachL] at hj
      rcases List.mem_cons.mp hj with rfl | htail
      · rcases hcr : (st.node j).creator with _ | op
        · exact hset
        · refine foldl_preserves (fun s : Heap => s.gradOf j = none) _ ?_ _ _ hset
          intro s i hs
          exact Tensor.nullGrads_none_mono f s i j hs
      · rcases List.mem_flatMap.mp htail with ⟨i0, hi0, hji0⟩
        rcases hcr : (st.node t).creator with _ | op
        · rw [creatorInputs, hcr] at hi0
          cases hi0
        · have hinputs : creatorInputs st t = op.inputs := by rw [creatorInputs, hcr]
          rw [hinputs] at hi0
          exact ngFold_clears f ih op.inputs st (st.setGrad t none) i0 j
            (Heap.setGrad_structEq st t none) hi0 hji0

theorem foldl_id_of_fixed {α σ : Type} (g : σ → α → σ) (l : List α) (s : σ)
    (h : ∀ a ∈ l, g s a = s) : l.foldl g s = s := by
  induction l with
  | nil => rfl
  | cons a rest ih =>
      show rest.foldl g (g s a) = s
      rw [h a (List.mem_cons_self a rest)]
      exact ih (fun b hb => h b (List.mem_cons_of_mem a hb))

/-- Clearing an already-absent grad buffer does not change the heap. -/
theorem Heap.setGrad_none_self {st : Heap} {t : Nat} (h : st.gradOf t = none) :
    st.setGrad t none = st := by
  rcases st with ⟨arrs, nodes⟩
  unfold Heap.setGrad
  simp only [Heap.mk.injEq, true_and]
  apply List.ext_getElem?
  intro n
  rw [List.getElem?_set]
  split
  · next heq =>
      subst heq
      split
      · next hlt =>
          have hget : nodes.getD t defaultNode = nodes[t] := List.getD_eq_getElem nodes defaultNode hlt
          have h2 : (nodes.getD t defaultNode).grad = none := h
          rw [List.getElem?_eq_getElem hlt]
          rw [hget] at h2 ⊢
          congr 1
          rw [← h2]
      · next hge => rw [List.getElem?_eq_none (by omega)]
  · rfl

/-- Gradient reset is the identity on a heap whose visited slots are all
already clear. -/
theorem Tensor.nullGrads_of_allNone :
    ∀ (fuel : Nat) (st : Heap) (t : Nat),
      (∀ j ∈ reachL fuel st t, st.gradOf j = none) → Tensor.nullGrads fuel st t = st := by
  intro fuel
  induction fuel with
  | zero => intro st t _; rfl
  | succ f ih =>
      intro st t h
      rw [Tensor.nullGrads_succ]
      have h0 : st.gradOf t = none := by
        apply h t
        rw [reachL]
        exact List.mem_cons_self t _
      have hsg : st.setGrad t none = st := Heap.setGrad_none_self h0
      rcases hcr : (st.node t).creator with _ | op
      · exact hsg
      · rw [hsg]
        apply foldl_id_of_fixed
        intro i hi
        apply ih
        intro j hj
        apply h j
        rw [reachL]
        apply List.mem_cons_of_mem
        apply List.mem_flatMap.mpr
        refine ⟨i, ?_, hj⟩
        rw [creatorInputs, hcr]
        exact hi

/-- Gradient reset is idempotent at any fuel. -/
theorem Tensor.nullGrads_idem (fuel : Nat) (st : Heap) (t : Nat) :
    Tensor.nullGrads fuel (Tensor.nullGrads fuel st t) t = Tensor.nullGrads fuel st t := by
  apply Tensor.nullGrads_of_allNone
  intro j hj
  have hse := Tensor.nullGrads_structEq fuel st t
  rw [Heap.reachL_congr hse] at hj
  exact Tensor.nullGrads_clears fuel st t j hj

/-- On a heap whose nodes all have absent grad, every grad read is `none`. -/
theorem Heap.allNone_gradOf {st : Heap}
    (h : st.nodes.all (fun n => n.grad.isNone) = true) : ∀ j, st.gradOf j = none := by
  intro j
  rcases lt_or_le j st.nodes.length with hlt | hle
  · have hmem : st.nodes[j] ∈ st.nodes := List.getElem_mem hlt
    rw [List.all_eq_true] at h
    have h2 := h _ hmem
    rw [Option.isNone_iff_eq_none] at h2
    show (st.nodes.getD j defaultNode).grad = none
    rw [List.getD_eq_getElem st.nodes defaultNode hlt]
    exact h2
  · exact Heap.gradOf_oob hle

/-- Everything `Reaches` can see, the fueled walk visits, once the fuel
exceeds the root index (on a well-formed heap the creator graph descends). -/
theorem Reaches_mem_reachL {st : Heap} (hwf : st.wfB = true) {t k : Nat}
    (hr : Reaches st t k) : ∀ fuel : Nat, t < fuel → k ∈ reachL fuel st t := by
  induction hr with
  | refl t =>
      intro fuel hf
      obtain ⟨f, rfl⟩ : ∃ f, fuel = f + 1 := ⟨fuel - 1, by omega⟩
      rw [reachL]
      exact List.mem_cons_self t _
  | step h1 _ ih =>
      intro fuel hf
      obtain ⟨f, rfl⟩ : ∃ f, fuel = f + 1 := ⟨fuel - 1, by omega⟩
      have hjt := wfB_lt hwf h1
      rw [reachL]
      apply List.mem_cons_of_mem
      apply List.mem_flatMap.mpr
      exact ⟨_, h1, ih f (by omega)⟩

/-! ## Construction and dispatch lemmas -/

theorem getD_concat_self {α : Type} (l : List α) (n : α) (d : α) :
    (l ++ [n]).getD l.length d = n := by
  rw [List.getD_eq_getElem?_getD, List.getElem?_concat_length]
  rfl

theorem getD_concat_lt {α : Type} (l tail : List α) (d : α) {i : Nat} (h : i < l.length) :
    (l ++ tail).getD i d = l.getD i d := by
  rw [List.getD_eq_getElem?_getD, List.getD_eq_getElem?_getD, List.getElem?_append,
    if_pos h]

theorem foldl_or (l : List Nat) (p : Nat → Bool) (b : Bool) :
    l.foldl (fun acc x => acc || p x) b = (b || l.any p) := by
  induction l generalizing b with
  | nil => simp
  | cons x rest ih =>
      show rest.foldl _ (b || p x) = _
      rw [ih (b || p x)]
      simp [Bool.or_assoc]

theorem Tensor.init_ofArr_eq (st : Heap) (a : NDArray) (c so : Bool) (cr : Option OpNode) :
    Tensor.init st (.ofArr a) c so cr =
      .ok (⟨st.arrs ++ [a], st.nodes ++ [⟨st.arrs.length, none, c, so, cr⟩]⟩,
        st.nodes.length) := rfl

theorem Tensor.init_ofTensor_eq (st : Heap) (tid : Nat) (c so : Bool) (cr : Option OpNode) :
    Tensor.init st (.ofTensor tid) c so cr =
      .ok ({ st with nodes := st.nodes ++ [⟨(st.node tid).dataRef, none, c, so, cr⟩] },
        st.nodes.length) := rfl

theorem Tensor.init_ofRaw_ok {p : PyObj} (h : (asarrayRaw p).isNumericDtype = true)
    (st : Heap) (c so : Bool) (cr : Option OpNode) :
    Tensor.init st (.ofRaw p) c so cr =
      .ok (⟨st.arrs ++ [(asarrayRaw p).toNDArray],
        st.nodes ++ [⟨st.arrs.length, none, c, so, cr⟩]⟩, st.nodes.length) := by
  simp only [Tensor.init]
  rw [if_pos h]

theorem Tensor.init_ofRaw_err {p : PyObj} (h : (asarrayRaw p).isNumericDtype = false)
    (st : Heap) (c so : Bool) (cr : Option OpNode) :
    Tensor.init st (.ofRaw p) c so cr =
      .error (.typeError "Tensor data must be a numeric type") := by
  simp only [Tensor.init]
  rw [if_neg (by rw [h]; exact Bool.false_ne_true)]

/-- Characterization of a successful `_op` call in terms of its coercion
step: the result is a fresh Tensor holding the forward output, with
`constant` the conjunction of the inputs' flags, `scalar_only` the fold the
source computes, and the Operation instance as creator. -/
theorem Tensor.applyOp_ok {st st1 : Heap} {k : OpKind} {vs : List TInput} {tids : List Nat}
    (hc : coerceAll st vs = .ok (st1, tids)) :
    Tensor.applyOp st k vs =
      .ok (⟨st1.arrs ++ [k.forward (tids.map st1.dataOf)],
        st1.nodes ++ [⟨st1.arrs.length, none,
          tids.all (fun i => (st1.node i).constant),
          tids.foldl
            (fun acc i => acc || ((st1.node i).scalarOnly && !(st1.node i).constant))
            (k.scalarOnlyFlag && !(tids.all fun i => (st1.node i).constant)),
          some ⟨k, tids⟩⟩]⟩, st1.nodes.length) := by
  unfold Tensor.applyOp
  rw [hc]
  rfl


theorem Heap.node_writeArr (st : Heap) (r : Nat) (a : NDArray) (i : Nat) :
    (st.writeArr r a).node i = st.node i := rfl

theorem Heap.arr_writeArr_ne {st : Heap} {r q : Nat} (h : r ≠ q) (a : NDArray) :
    (st.writeArr r a).arr q = st.arr q := by
  show (st.arrs.set r a).getD q _ = st.arrs.getD q _
  rw [List.getD_eq_getElem?_getD, List.getD_eq_getElem?_getD, List.getElem?_set_ne h]

theorem Heap.arr_writeArr_self {st : Heap} {r : Nat} (h : r < st.arrs.length) (a : NDArray) :
    (st.writeArr r a).arr r = a := by
  show (st.arrs.set r a).getD r _ = a
  rw [List.getD_eq_getElem?_getD, List.getElem?_set_self', List.getElem?_eq_getElem h]
  rfl

/-! ## The claims -/

/-- C1 (the code does not do what the claim says): on a non-scalar Tensor
flagged `scalar_only`, `backward()` with no explicit gradient does not raise
`InvalidNonScalarBackprop` — no code path of `Tensor.backward` raises at
all (its embedding returns a heap, not an error) — and instead installs the
all-ones default seed, here on `Tensor([1, 2], _scalar_only=True)`. -/
theorem claim1_nonscalar_so_backward_completes :
    exScalarOnlyVec = .ok ((getOk exScalarOnlyVec).1, 0) ∧
    ((getOk exScalarOnlyVec).1.node 0).scalarOnly = true ∧
    ((getOk exScalarOnlyVec).1.dataOf 0).ndim = 1 ∧
    (Tensor.backwardF 1 (getOk exScalarOnlyVec).1 0 none).gradOf 0
      = some (NDArray.ones [2]) := by
  refine ⟨by decide, by decide, by decide, by decide⟩

/-- C2 (the code does not do what the claim says): `Tensor.backward` sets
`self.grad` unconditionally, so calling `backward()` directly on
`Tensor(1, constant=True)` leaves its grad equal to 1, not absent. -/
theorem claim2_constant_grad_set_by_backward :
    exConstLeaf = .ok ((getOk exConstLeaf).1, 0) ∧
    ((getOk exConstLeaf).1.node 0).constant = true ∧
    (getOk exConstLeaf).1.gradOf 0 = none ∧
    (Tensor.backwardF 1 (getOk exConstLeaf).1 0 none).gradOf 0 = some NDArray.one0d := by
  refine ⟨by decide, by decide, by decide, by decide⟩

/-- C3 counterexample: `Tensor(x)` does not copy `x`'s array.  For
`x = Tensor([1, 2])` and `y = Tensor(x)`, both tensors hold the same array
reference, and writing `[5, 6]` through `x`'s array changes `y.data` —
the arrays are not independent, contrary to the claim. -/
theorem claim3_ctor_copy_cex :
    exFromTensor = .ok (exHeapFromTensor, 1) ∧
    (exHeapFromTensor.node 1).dataRef = (exHeapFromTensor.node 0).dataRef ∧
    exHeapFromTensor.dataOf 1 = ⟨[2], [1, 2]⟩ ∧
    (exHeapFromTensor.writeArr ((exHeapFromTensor.node 0).dataRef) ⟨[2], [5, 6]⟩).dataOf 1
      = ⟨[2], [5, 6]⟩ ∧
    (⟨[2], [5, 6]⟩ : NDArray) ≠ ⟨[2], [1, 2]⟩ := by
  refine ⟨by decide, by decide, by decide, by decide, by decide⟩

/-- C3 (amended): constructing a Tensor from an existing Tensor `x` yields
a fresh leaf (new object, absent grad, no creator when none is supplied)
that reuses `x`'s underlying array rather than copying it: the data
reference is shared, so writing an array through that shared reference is
seen by `x` as well. -/
theorem Heap.node_append_self (arrs : List NDArray) (nodes : List TensorNode)
    (n : TensorNode) : (⟨arrs, nodes ++ [n]⟩ : Heap).node nodes.length = n :=
  getD_concat_self nodes n defaultNode

theorem Heap.node_append_lt (arrs : List NDArray) (nodes tail : List TensorNode)
    {i : Nat} (h : i < nodes.length) :
    (⟨arrs, nodes ++ tail⟩ : Heap).node i = (⟨arrs, nodes⟩ : Heap).node i :=
  getD_concat_lt nodes tail defaultNode h

theorem Heap.arr_append_self (arrs : List NDArray) (nodes : List TensorNode)
    (a : NDArray) : (⟨arrs ++ [a], nodes⟩ : Heap).arr arrs.length = a :=
  getD_concat_self arrs a _

theorem Heap.arr_append_lt (arrs tail : List NDArray) (nodes : List TensorNode)
    {r : Nat} (h : r < arrs.length) :
    (⟨arrs ++ tail, nodes⟩ : Heap).arr r = (⟨arrs, nodes⟩ : Heap).arr r :=
  getD_concat_lt arrs tail _ h

/-- C3 (amended): constructing a Tensor from an existing Tensor `x` yields
a fresh leaf (new object, absent grad, no creator when none is supplied)
that reuses `x`'s underlying array rather than copying it: the data
reference is shared, so an array written through that shared reference is
what the new Tensor reads as its data. -/
theorem claim3_ctor_shares_array
    {st st2 : Heap} {tid nid : Nat} {c so : Bool}
    (hinit : Tensor.init st (.ofTensor tid) c so none = .ok (st2, nid))
    (htid : tid < st.nodes.length) (href : (st.node tid).dataRef < st.arrs.length)
    (a : NDArray) :
    nid = st.nodes.length ∧
    (st2.node nid).dataRef = (st.node tid).dataRef ∧
    (st2.node nid).grad = none ∧ (st2.node nid).creator = none ∧
    (st2.writeArr ((st2.node nid).dataRef) a).dataOf tid = a := by
  rw [Tensor.init_ofTensor_eq] at hinit
  injection hinit with hinit
  injection hinit with h1 h2
  subst h1
  subst h2
  have hnode := Heap.node_append_self st.arrs st.nodes
    ⟨(st.node tid).dataRef, none, c, so, none⟩
  refine ⟨rfl, ?_, ?_, ?_, ?_⟩ <;> rw [hnode]
  unfold Heap.dataOf
  rw [Heap.node_writeArr, Heap.node_append_lt st.arrs st.nodes _ htid]
  show (Heap.writeArr _ _ a).arr (Heap.node st tid).dataRef = a
  exact Heap.arr_writeArr_self href a

/-- C3 witness: the amended statement at `x = Tensor([1, 2])`,
`y = Tensor(x)`. -/
theorem claim3_ctor_shares_array_witness :
    Tensor.init exHeapVec (.ofTensor (getOk exVecLeaf).2) false false none
      = .ok (exHeapFromTensor, 1) ∧
    (getOk exVecLeaf).2 < exHeapVec.nodes.length ∧
    (exHeapVec.node (getOk exVecLeaf).2).dataRef < exHeapVec.arrs.length ∧
    (1 = exHeapVec.nodes.length ∧
     (exHeapFromTensor.node 1).dataRef = (exHeapVec.node (getOk exVecLeaf).2).dataRef ∧
     (exHeapFromTensor.node 1).grad = none ∧ (exHeapFromTensor.node 1).creator = none ∧
     (exHeapFromTensor.writeArr ((exHeapFromTensor.node 1).dataRef) ⟨[2], [7, 8]⟩).dataOf
        (getOk exVecLeaf).2 = ⟨[2], [7, 8]⟩) :=
  ⟨by decide, by decide, by decide,
   @claim3_ctor_shares_array exHeapVec exHeapFromTensor (getOk exVecLeaf).2 1 false false
     (by decide) (by decide) (by decide) ⟨[2], [7, 8]⟩⟩

/-- C4: for any operation applied through `_op`, writing `st1`, `tids` for
the heap and tensors after coercion, the result's `scalar_only` flag equals
(operation's scalar_only AND NOT is_const) OR (some input is scalar_only
AND that input is not constant), with is_const the conjunction of the
inputs' constant flags. -/
theorem claim4_scalar_only_rule (st st1 st2 : Heap) (k : OpKind) (vs : List TInput)
    (tids : List Nat) (tid : Nat)
    (hc : coerceAll st vs = .ok (st1, tids))
    (hop : Tensor.applyOp st k vs = .ok (st2, tid)) :
    (st2.node tid).scalarOnly =
      ((k.scalarOnlyFlag && !(tids.all fun i => (st1.node i).constant))
        || (tids.any fun i => (st1.node i).scalarOnly && !(st1.node i).constant)) := by
  have h2 := Tensor.applyOp_ok (k := k) hc
  rw [hop] at h2
  injection h2 with h2
  injection h2 with h1 h2
  subst h1
  subst h2
  rw [Heap.node_append_self]
  exact foldl_or tids _ _

/-- C4 witness: `z = x + 3` with `x = Tensor(2, _scalar_only=True)`. -/
theorem claim4_scalar_only_rule_witness :
    exMixedCoerce = .ok ((getOkC exMixedCoerce).1, (getOkC exMixedCoerce).2) ∧
    exMixedOp = .ok ((getOk exMixedOp).1, (getOk exMixedOp).2) ∧
    ((getOk exMixedOp).1.node (getOk exMixedOp).2).scalarOnly =
      ((OpKind.add.scalarOnlyFlag
          && !((getOkC exMixedCoerce).2.all fun i => ((getOkC exMixedCoerce).1.node i).constant))
        || ((getOkC exMixedCoerce).2.any fun i =>
              ((getOkC exMixedCoerce).1.node i).scalarOnly
                && !((getOkC exMixedCoerce).1.node i).constant)) :=
  ⟨by decide, by decide,
   claim4_scalar_only_rule exHeapSO (getOkC exMixedCoerce).1 (getOk exMixedOp).1 .add
     [.ofTensor (getOk exScalarOnlyLeaf).2, .ofRaw (.leaf (.num 3))]
     (getOkC exMixedCoerce).2 (getOk exMixedOp).2 (by decide) (by decide)⟩

/-- C5: the result of `_op` is constant exactly when every coerced input is
constant, and any non-Tensor input is coerced to a constant leaf Tensor
(constant true, no creator, no grad). -/
theorem claim5_constant_conjunction :
    (∀ (st st1 st2 : Heap) (k : OpKind) (vs : List TInput) (tids : List Nat) (tid : Nat),
      coerceAll st vs = .ok (st1, tids) →
      Tensor.applyOp st k vs = .ok (st2, tid) →
      (st2.node tid).constant = (tids.all fun i => (st1.node i).constant)) ∧
    (∀ (st : Heap) (v : TInput) (st2 : Heap) (i : Nat),
      (∀ t, v ≠ .ofTensor t) → coerceOne st v = .ok (st2, i) →
      (st2.node i).constant = true ∧ (st2.node i).creator = none ∧
        (st2.node i).grad = none) := by
  constructor
  · intro st st1 st2 k vs tids tid hc hop
    have h2 := Tensor.applyOp_ok (k := k) hc
    rw [hop] at h2
    injection h2 with h2
    injection h2 with h1 h2
    subst h1
    subst h2
    rw [Heap.node_append_self]
  · intro st v st2 i hv hco
    cases v with
    | ofTensor t => exact absurd rfl (hv t)
    | ofRaw p =>
        have heq : coerceOne st (.ofRaw p) = Tensor.init st (.ofRaw p) true false none := rfl
        rw [heq] at hco
        cases hnum : (asarrayRaw p).isNumericDtype with
        | false =>
            rw [Tensor.init_ofRaw_err hnum] at hco
            exact Except.noConfusion hco
        | true =>
            rw [Tensor.init_ofRaw_ok hnum] at hco
            injection hco with hco
            injection hco with h1 h2
            subst h1
            subst h2
            rw [Heap.node_append_self]
            exact ⟨rfl, rfl, rfl⟩
    | ofArr a =>
        have heq : coerceOne st (.ofArr a) = Tensor.init st (.ofArr a) true false none := rfl
        rw [heq, Tensor.init_ofArr_eq] at hco
        injection hco with hco
        injection hco with h1 h2
        subst h1
        subst h2
        rw [Heap.node_append_self]
        exact ⟨rfl, rfl, rfl⟩

/-- C5 witness: `z = x + 3`: the result is non-constant (x is a variable),
and the raw operand 3 was coerced to a constant creator-less leaf. -/
theorem claim5_constant_conjunction_witness :
    exMixedCoerce = .ok ((getOkC exMixedCoerce).1, (getOkC exMixedCoerce).2) ∧
    exMixedOp = .ok ((getOk exMixedOp).1, (getOk exMixedOp).2) ∧
    ((getOk exMixedOp).1.node (getOk exMixedOp).2).constant =
      ((getOkC exMixedCoerce).2.all fun i => ((getOkC exMixedCoerce).1.node i).constant) ∧
    (((getOkC exMixedCoerce).1.node 1).constant = true ∧
      ((getOkC exMixedCoerce).1.node 1).creator = none ∧
      ((getOkC exMixedCoerce).1.node 1).grad = none) :=
  ⟨by decide, by decide,
   claim5_constant_conjunction.1 exHeapSO (getOkC exMixedCoerce).1 (getOk exMixedOp).1 .add
     [.ofTensor (getOk exScalarOnlyLeaf).2, .ofRaw (.leaf (.num 3))]
     (getOkC exMixedCoerce).2 (getOk exMixedOp).2 (by decide) (by decide),
   claim5_constant_conjunction.2 exHeapSO (.ofRaw (.leaf (.num 3)))
     (getOkC exMixedCoerce).1 1 (fun t h => TInput.noConfusion h) (by decide)⟩

/-- C6: `backward(g)` sets the invoked tensor's grad to `g` when the buffer
was absent and to the elementwise sum of buffer and `g` otherwise; in
particular `y.backward()` for `y = x + x` (one tensor used twice) leaves
`x.grad` equal to 2, not 1. -/
theorem claim6_grad_accumulates :
    (∀ (st : Heap) (tid : Nat) (g : NDArray) (fuel : Nat),
      st.wfB = true → tid < st.nodes.length →
      (Tensor.backwardF (fuel + 1) st tid (some g)).gradOf tid =
        some (match st.gradOf tid with
              | none => g
              | some b => b.add g)) ∧
    exAddXX = .ok (exHeapY, 1) ∧
    (exHeapY.node 1).creator = some ⟨.add, [0, 0]⟩ ∧
    exHeapYBack.gradOf 0 = some ⟨[], [2]⟩ := by
  refine ⟨?_, by decide, by decide, by decide⟩
  intro st tid g fuel hwf ht
  rw [Tensor.backwardF_gradOf_self hwf ht fuel]
  rfl

/-- C6 witness: the general accumulation statement applied twice on the
leaf `x = Tensor(2)`: first call installs the gradient, second call sums. -/
theorem claim6_grad_accumulates_witness :
    exHeapX.wfB = true ∧ 0 < exHeapX.nodes.length ∧
    (Tensor.backwardF 1 exHeapX 0 (some ⟨[], [5]⟩)).gradOf 0 =
      some (match exHeapX.gradOf 0 with
            | none => (⟨[], [5]⟩ : NDArray)
            | some b => b.add ⟨[], [5]⟩) ∧
    (Tensor.backwardF 1 (Tensor.backwardF 1 exHeapX 0 (some ⟨[], [5]⟩)) 0
        (some ⟨[], [5]⟩)).gradOf 0 = some ⟨[], [10]⟩ :=
  ⟨by decide, by decide,
   claim6_grad_accumulates.1 exHeapX 0 ⟨[], [5]⟩ 0 (by decide) (by decide),
   claim6_grad_accumulates.1 (Tensor.backwardF 1 exHeapX 0 (some ⟨[], [5]⟩)) 0
     ⟨[], [5]⟩ 0 (by decide) (by decide)⟩

/-- C7: `backward()` with no argument seeds the scalar 1 on a 0-d tensor
and an all-ones array of the tensor's shape otherwise (here for a
non-`scalar_only` tensor, as the claim states). -/
theorem claim7_default_seed (st : Heap) (tid fuel : Nat)
    (hwf : st.wfB = true) (ht : tid < st.nodes.length) (hg : st.gradOf tid = none)
    (_hso : (st.node tid).scalarOnly = false) :
    (Tensor.backwardF (fuel + 1) st tid none).gradOf tid =
      some (if (st.dataOf tid).ndim = 0 then NDArray.one0d
            else NDArray.ones (st.dataOf tid).shape) := by
  rw [Tensor.backwardF_gradOf_self hwf ht fuel]
  have hg2 : (st.node tid).grad = none := hg
  unfold accGrad
  rw [hg2]
  rfl

/-- C7 witness: the 0-d leaf `Tensor(2)` gets seed 1; the 1-d leaf
`Tensor([1, 2])` gets seed ones of its shape. -/
theorem claim7_default_seed_witness :
    (exHeapX.wfB = true ∧ 0 < exHeapX.nodes.length ∧ exHeapX.gradOf 0 = none ∧
      (exHeapX.node 0).scalarOnly = false ∧
      (Tensor.backwardF 1 exHeapX 0 none).gradOf 0 =
        some (if (exHeapX.dataOf 0).ndim = 0 then NDArray.one0d
              else NDArray.ones (exHeapX.dataOf 0).shape)) ∧
    (exHeapVec.wfB = true ∧ 0 < exHeapVec.nodes.length ∧ exHeapVec.gradOf 0 = none ∧
      (exHeapVec.node 0).scalarOnly = false ∧
      (Tensor.backwardF 1 exHeapVec 0 none).gradOf 0 =
        some (NDArray.ones [2])) :=
  ⟨⟨by decide, by decide, by decide, by decide,
    claim7_default_seed exHeapX 0 0 (by decide) (by decide) (by decide) (by decide)⟩,
   ⟨by decide, by decide, by decide, by decide,
    claim7_default_seed exHeapVec 0 0 (by decide) (by decide) (by decide) (by decide)⟩⟩

/-- C8: `null_gradients()` clears the grad of every tensor in the upstream
creator subgraph (no constancy condition appears anywhere in the walk), it
is idempotent, and on a graph with no accumulated gradients it returns the
heap unchanged (in particular it raises nothing: its embedding is total). -/
theorem claim8_null_gradients :
    (∀ (st : Heap) (t j : Nat), st.wfB = true → Reaches st t j →
      (Tensor.nullGrads (t + 1) st t).gradOf j = none) ∧
    (∀ (fuel : Nat) (st : Heap) (t : Nat),
      Tensor.nullGrads fuel (Tensor.nullGrads fuel st t) t = Tensor.nullGrads fuel st t) ∧
    (∀ (fuel : Nat) (st : Heap) (t : Nat),
      st.nodes.all (fun n => n.grad.isNone) = true → Tensor.nullGrads fuel st t = st) := by
  refine ⟨?_, Tensor.nullGrads_idem, ?_⟩
  · intro st t j hwf hr
    exact Tensor.nullGrads_clears (t + 1) st t j
      (Reaches_mem_reachL hwf hr (t + 1) (by omega))
  · intro fuel st t hall
    exact Tensor.nullGrads_of_allNone fuel st t (fun j _ => Heap.allNone_gradOf hall j)

/-- C8 witness: on the graph `y = x + x` after `y.backward()`, resetting
from `y` clears `x.grad` (reachable through the creator), twice in a row
equals once, and on the freshly built graph (no grads) it is the
identity. -/
theorem claim8_null_gradients_witness :
    exHeapYBack.wfB = true ∧
    (Tensor.nullGrads 2 exHeapYBack 1).gradOf 0 = none ∧
    Tensor.nullGrads 3 (Tensor.nullGrads 3 exHeapYBack 1) 1 =
      Tensor.nullGrads 3 exHeapYBack 1 ∧
    exHeapY.nodes.all (fun n => n.grad.isNone) = true ∧
    Tensor.nullGrads 4 exHeapY 1 = exHeapY :=
  ⟨by decide,
   claim8_null_gradients.1 exHeapYBack 1 0 (by decide)
     (Reaches.step (by decide) (Reaches.refl 0)),
   claim8_null_gradients.2.1 3 exHeapYBack 1,
   by decide,
   claim8_null_gradients.2.2 4 exHeapY 1 (by decide)⟩

/-- C9: `copy(t)` yields a Tensor with the same data value, `constant` and
`scalar_only` flags, no creator, and a fresh array cell: writing through
the copy's array reference leaves `t`'s data unchanged. -/
theorem claim9_copy_detached (st st2 : Heap) (tid cid : Nat)
    (hcopy : Tensor.copy st tid = .ok (st2, cid))
    (htid : tid < st.nodes.length) (href : (st.node tid).dataRef < st.arrs.length) :
    st2.dataOf cid = st.dataOf tid ∧
    (st2.node cid).constant = (st.node tid).constant ∧
    (st2.node cid).scalarOnly = (st.node tid).scalarOnly ∧
    (st2.node cid).creator = none ∧
    (st2.node cid).dataRef ≠ (st.node tid).dataRef ∧
    ∀ a : NDArray, (st2.writeArr ((st2.node cid).dataRef) a).dataOf tid = st.dataOf tid := by
  unfold Tensor.copy at hcopy
  rw [Tensor.init_ofArr_eq] at hcopy
  injection hcopy with hcopy
  injection hcopy with h1 h2
  subst h1
  subst h2
  have hnode := Heap.node_append_self (st.arrs ++ [st.dataOf tid]) st.nodes
    ⟨st.arrs.length, none, (st.node tid).constant, (st.node tid).scalarOnly, none⟩
  have hnode' := hnode
  unfold Heap.dataOf at hnode'
  refine ⟨?_, ?_, ?_, ?_, ?_, ?_⟩
  · unfold Heap.dataOf
    rw [hnode']
    exact Heap.arr_append_self st.arrs _ _
  · rw [hnode]
  · rw [hnode]
  · rw [hnode]
  · rw [hnode]
    exact Nat.ne_of_gt href
  · intro a
    unfold Heap.dataOf
    rw [Heap.node_writeArr, hnode', Heap.node_append_lt _ _ _ htid]
    have hnd : (⟨st.arrs ++ [st.arr (Heap.node st tid).dataRef], st.nodes⟩ : Heap).node tid
        = st.node tid := rfl
    rw [hnd]
    have hne : st.arrs.length ≠ (Heap.node st tid).dataRef := Nat.ne_of_gt href
    rw [Heap.arr_writeArr_ne hne a, Heap.arr_append_lt st.arrs _ _ href]
    rfl

/-- C9 witness: copying `x = Tensor([1, 2])`. -/
theorem claim9_copy_detached_witness :
    Tensor.copy exHeapVec (getOk exVecLeaf).2 = .ok ((getOk exCopy).1, (getOk exCopy).2) ∧
    (getOk exVecLeaf).2 < exHeapVec.nodes.length ∧
    (exHeapVec.node (getOk exVecLeaf).2).dataRef < exHeapVec.arrs.length ∧
    (getOk exCopy).1.dataOf (getOk exCopy).2 = exHeapVec.dataOf (getOk exVecLeaf).2 ∧
    ((getOk exCopy).1.node (getOk exCopy).2).creator = none ∧
    ((getOk exCopy).1.node (getOk exCopy).2).dataRef
      ≠ (exHeapVec.node (getOk exVecLeaf).2).dataRef ∧
    ((getOk exCopy).1.writeArr (((getOk exCopy).1.node (getOk exCopy).2).dataRef)
        ⟨[2], [9, 9]⟩).dataOf (getOk exVecLeaf).2 = exHeapVec.dataOf (getOk exVecLeaf).2 := by
  have h := claim9_copy_detached exHeapVec (getOk exCopy).1 (getOk exVecLeaf).2
    (getOk exCopy).2 (by decide) (by decide) (by decide)
  exact ⟨by decide, by decide, by decide, h.1, h.2.2.2.1, h.2.2.2.2.1,
    h.2.2.2.2.2 ⟨[2], [9, 9]⟩⟩

/-- C10 counterexample: constructing a Tensor from a string raises the
builtin `TypeError`, not the spec's `InvalidDataType`. -/
theorem claim10_invaliddatatype_cex :
    Tensor.init ⟨[], []⟩ (.ofRaw (.leaf (.str "abc"))) false false none
      = .error (.typeError "Tensor data must be a numeric type") ∧
    Tensor.init ⟨[], []⟩ (.ofRaw (.leaf (.str "abc"))) false false none
      ≠ .error Err.invalidDataType := by
  refine ⟨by decide, by decide⟩

/-- C10 (amended): for every array-like input whose coerced dtype is not
numeric, Tensor construction fails, synchronously at the construction
call, by raising the builtin `TypeError` (message from the source). -/
theorem claim10_nonnumeric_typeerror (st : Heap) (x : PyObj) (c so : Bool)
    (cr : Option OpNode) (h : (asarrayRaw x).isNumericDtype = false) :
    Tensor.init st (.ofRaw x) c so cr
      = .error (.typeError "Tensor data must be a numeric type") :=
  Tensor.init_ofRaw_err h st c so cr

/-- C10 witness: the amended statement at a concrete string input. -/
theorem claim10_nonnumeric_typeerror_witness :
    (asarrayRaw (.leaf (.str "hi"))).isNumericDtype = false ∧
    Tensor.init ⟨[], []⟩ (.ofRaw (.leaf (.str "hi"))) false false none
      = .error (.typeError "Tensor data must be a numeric type") :=
  ⟨by decide, claim10_nonnumeric_typeerror ⟨[], []⟩ (.leaf (.str "hi")) false false none
    (by decide)⟩

end MyGrad
